import Mathlib

/-!
Verification of the playfield simulation core of a falling-block puzzle game
(`src/game.py`).  The pure game logic — grid, piece movement, collision,
rotation, line clearing with a timed animation phase, scoring and leveling —
is embedded shallowly below.  Rendering, fonts, window handling and the
particle visual effects are presentation-only and carry no game state that the
verified properties mention; they are omitted.  Randomness (`random.randint`,
`random.choice`) is modelled by an explicit oracle: the state carries a list
of naturals `rng` and each draw consumes the head (reduced modulo the size of
the choice set), so every run of the embedded game is one deterministic
resolution of the source's random choices.
-/

namespace Tetris

/-- RGB colour triple, as in the source.  A grid cell holds `none` for the
Python integer `0` (empty) and `some c` for a colour tuple; this matches the
source's truthiness test `if self.grid[y][x]`, since any tuple is truthy. -/
abbrev Color := Nat × Nat × Nat

/-- `TETROMINO_COLORS` from the source: CYAN, YELLOW, MAGENTA, ORANGE, BLUE,
GREEN, RED. -/
def TETROMINO_COLORS : List Color :=
  [(0, 255, 255), (255, 255, 0), (255, 0, 255), (255, 165, 0),
   (0, 0, 255), (0, 255, 0), (255, 0, 0)]

/-- `TETROMINOS` from the source: I, O, T, L, J, S, Z shape matrices. -/
def TETROMINOS : List (List (List Nat)) :=
  [[[1, 1, 1, 1]],
   [[1, 1], [1, 1]],
   [[1, 1, 1], [0, 1, 0]],
   [[1, 1, 1], [1, 0, 0]],
   [[1, 1, 1], [0, 0, 1]],
   [[1, 1, 0], [0, 1, 1]],
   [[0, 1, 1], [1, 1, 0]]]

def GRID_WIDTH : Nat := 10

def GRID_HEIGHT : Nat := 20

/-- One tetromino instance (`class Tetromino`). -/
structure Tetromino where
  x : Int
  y : Int
  shape : List (List Nat)
  color : Color
  rotIdx : Nat
deriving DecidableEq

/-- `Tetromino.__init__(x, y, shape_idx)`. -/
def mkTetromino (x y : Int) (shape_idx : Nat) : Tetromino :=
  { x := x, y := y, shape := TETROMINOS.getD shape_idx [],
    color := TETROMINO_COLORS.getD shape_idx (0, 0, 0), rotIdx := 0 }

/-- The 90 degrees clockwise matrix rotation of `Tetromino.rotate`:
`rotated[c][rows - 1 - r] = shape[r][c]`, i.e. entry `(i, j)` of the result is
entry `(rows - 1 - j, i)` of the input. -/
def rotateShape (shape : List (List Nat)) : List (List Nat) :=
  let rows := shape.length
  let cols := (shape.headD []).length
  (List.range cols).map (fun i =>
    (List.range rows).map (fun j => (shape.getD (rows - 1 - j) []).getD i 0))

/-- `Tetromino.rotate` (the in-place mutation, as a function). -/
def Tetromino.rotate (t : Tetromino) : Tetromino :=
  { t with shape := rotateShape t.shape }

/-- `Tetromino.get_positions`: absolute grid coordinates of all set cells. -/
def Tetromino.get_positions (t : Tetromino) : List (Int × Int) :=
  (List.range t.shape.length).flatMap (fun r =>
    (List.range (t.shape.headD []).length).filterMap (fun c =>
      if (t.shape.getD r []).getD c 0 ≠ 0 then some (t.x + c, t.y + r)
      else none))

/-- The playfield grid: rows of optional colours. -/
abbrev Grid := List (List (Option Color))

/-- The guarded occupancy read `self.grid[y][x]` (used only at `0 ≤ y`,
in-range coordinates). -/
def cellOccupied (grid : Grid) (y x : Int) : Bool :=
  ((grid.getD y.toNat []).getD x.toNat none).isSome

/-- Body of `TetrisGame.is_valid_position`, parameterised by the grid: every
occupied cell must pass the bounds and collision tests. -/
def validPos (grid : Grid) (p : Tetromino) : Bool :=
  p.get_positions.all (fun pos =>
    !(decide (pos.1 < 0) || decide ((GRID_WIDTH : Int) ≤ pos.1) ||
      decide ((GRID_HEIGHT : Int) ≤ pos.2) ||
      (decide (0 ≤ pos.2) && cellOccupied grid pos.2 pos.1)))

/-- The whole mutable session state of `class TetrisGame` (simulation fields
only; rendering handles and particles omitted, randomness as the `rng`
oracle). -/
structure TetrisGame where
  grid : Grid
  current_piece : Option Tetromino
  next_piece : Option Tetromino
  score : Nat
  lines_cleared : Nat
  level : Nat
  game_over : Bool
  paused : Bool
  fall_time : Nat
  fall_speed : Nat
  random_block_time : Nat
  random_block_interval : Nat
  random_blocks_enabled : Bool
  lines_clearing : List Nat
  clear_animation_time : Nat
  rng : List Nat
deriving DecidableEq

/-- Draw one value from the randomness oracle. -/
def draw (g : TetrisGame) : Nat × TetrisGame :=
  (g.rng.headD 0, { g with rng := g.rng.tail })

/-- `TetrisGame.is_valid_position`. -/
def TetrisGame.is_valid_position (g : TetrisGame) (p : Tetromino) : Bool :=
  validPos g.grid p

/-- `TetrisGame.spawn_new_piece`: first call only sets the next piece;
afterwards it promotes next to current, draws a fresh next piece at
`(GRID_WIDTH // 2 - 1, 0)`, and flags game over when the promoted piece's
position is invalid. -/
def TetrisGame.spawn_new_piece (g : TetrisGame) : TetrisGame :=
  match g.next_piece with
  | none =>
      let d := draw g
      let fresh := mkTetromino ((GRID_WIDTH : Int) / 2 - 1) 0 (d.1 % TETROMINOS.length)
      { d.2 with next_piece := some fresh }
  | some np =>
      let d := draw g
      let fresh := mkTetromino ((GRID_WIDTH : Int) / 2 - 1) 0 (d.1 % TETROMINOS.length)
      let g1 := { d.2 with current_piece := some np, next_piece := some fresh }
      if g1.is_valid_position np = false then { g1 with game_over := true } else g1

/-- One guarded cell write of `TetrisGame.place_piece`:
`if 0 <= y < GRID_HEIGHT and 0 <= x < GRID_WIDTH: grid[y][x] = color`. -/
def commitCell (grid : Grid) (x y : Int) (color : Color) : Grid :=
  if 0 ≤ y ∧ y < (GRID_HEIGHT : Int) ∧ 0 ≤ x ∧ x < (GRID_WIDTH : Int) then
    grid.set y.toNat ((grid.getD y.toNat []).set x.toNat (some color))
  else grid

/-- The grid-write loop of `TetrisGame.place_piece`. -/
def commitPiece (grid : Grid) (p : Tetromino) : Grid :=
  p.get_positions.foldl (fun gr pos => commitCell gr pos.1 pos.2 p.color) grid

/-- `all(self.grid[y])`: every cell of the row is occupied. -/
def rowFull (row : List (Option Color)) : Bool :=
  row.all (fun c => c.isSome)

/-- The full-row scan of `TetrisGame.clear_lines`. -/
def fullRowsOf (grid : Grid) : List Nat :=
  (List.range GRID_HEIGHT).filter (fun y => rowFull (grid.getD y []))

/-- Insertion into a descending-sorted list (used to model
`sorted(self.lines_clearing, reverse=True)`). -/
def insertDesc (x : Nat) : List Nat → List Nat
  | [] => [x]
  | y :: ys => if y ≤ x then x :: y :: ys else y :: insertDesc x ys

/-- Descending sort, modelling `sorted(-, reverse=True)` (the sorted lists
here hold distinct row indices, for which any descending sort agrees). -/
def sortDesc (l : List Nat) : List Nat := l.foldr insertDesc []

/-- The compaction loop of `TetrisGame.finish_line_clear`: for each recorded
row in descending order, `del self.grid[y]` then insert an empty row at the
top. -/
def compactGrid (grid : Grid) (rows : List Nat) : Grid :=
  (sortDesc rows).foldl
    (fun gr y => (List.replicate GRID_WIDTH (none : Option Color)) :: gr.eraseIdx y)
    grid

/-- `TetrisGame.finish_line_clear` (particle creation omitted: particles are
presentation-only and touch no simulation field). -/
def TetrisGame.finish_line_clear (g : TetrisGame) : TetrisGame :=
  if g.lines_clearing = [] then g
  else
    let grid' := compactGrid g.grid g.lines_clearing
    let n := g.lines_clearing.length
    let lines' := g.lines_cleared + n
    let score' := g.score + n * 100 * g.level
    let level' := lines' / 10 + 1
    let speed' := (max 100 (1000 - ((level' : Int) - 1) * 100)).toNat
    { g with grid := grid', lines_cleared := lines', score := score',
             level := level', fall_speed := speed',
             lines_clearing := [], clear_animation_time := 0 }

/-- `TetrisGame.clear_lines`. -/
def TetrisGame.clear_lines (g : TetrisGame) : TetrisGame :=
  let lines := fullRowsOf g.grid
  if lines = [] then g.finish_line_clear
  else { g with lines_clearing := lines, clear_animation_time := 0 }

/-- `TetrisGame.place_piece`: commit the current piece's cells, run line-clear
detection, then spawn.  (The source unconditionally dereferences
`self.current_piece`; it is only ever called with a current piece present,
so the `none` branch is unreachable and returns the state unchanged.) -/
def TetrisGame.place_piece (g : TetrisGame) : TetrisGame :=
  match g.current_piece with
  | none => g
  | some p =>
      (TetrisGame.clear_lines { g with grid := commitPiece g.grid p }).spawn_new_piece

/-- `TetrisGame.move_piece`: tentative offset, rollback on invalidity, and
placement when a downward move fails. -/
def TetrisGame.move_piece (g : TetrisGame) (dx dy : Int) : Bool × TetrisGame :=
  match g.current_piece with
  | none => (false, g)
  | some p =>
      let p' := { p with x := p.x + dx, y := p.y + dy }
      if g.is_valid_position p' = false then
        if 0 < dy then (false, g.place_piece) else (false, g)
      else (true, { g with current_piece := some p' })

/-- `TetrisGame.rotate_piece`: attempt the rotation, silently revert the shape
when the rotated position is invalid (the source never touches `x`, `y` or the
grid here, so reverting the shape restores the state exactly). -/
def TetrisGame.rotate_piece (g : TetrisGame) : TetrisGame :=
  match g.current_piece with
  | none => g
  | some p =>
      let p' := p.rotate
      if g.is_valid_position p' = false then g
      else { g with current_piece := some p' }

/-- Fuelled unfolding of the `while self.move_piece(0, 1): pass` loop of
`TetrisGame.hard_drop`.  For any state whose current piece has at least one
set cell and non-negative `y` the loop exits within 21 iterations (proved
below), so the fuelled function agrees with the source loop there. -/
def TetrisGame.hardDropFuel (g : TetrisGame) : Nat → TetrisGame
  | 0 => g
  | fuel + 1 =>
      let r := g.move_piece 0 1
      if r.1 then r.2.hardDropFuel fuel else r.2

/-- `TetrisGame.hard_drop`. -/
def TetrisGame.hard_drop (g : TetrisGame) : TetrisGame :=
  g.hardDropFuel 21

/-- The per-column scan of `TetrisGame.spawn_random_block`: index of the
highest occupied cell of column `x`, or `GRID_HEIGHT` when the column is
empty. -/
def highestBlockY (grid : Grid) (x : Nat) : Nat :=
  match (List.range GRID_HEIGHT).find? (fun y => ((grid.getD y []).getD x none).isSome) with
  | some y => y
  | none => GRID_HEIGHT

/-- `TetrisGame.spawn_random_block`: one random colour dropped onto the top of
a randomly chosen non-full column. -/
def TetrisGame.spawn_random_block (g : TetrisGame) : TetrisGame :=
  let valid_positions := (List.range GRID_WIDTH).filterMap (fun x =>
    let h := highestBlockY g.grid x
    if 0 < h then some (x, h - 1) else none)
  if valid_positions = [] then g
  else
    let d1 := draw g
    let pos := valid_positions.getD (d1.1 % valid_positions.length) (0, 0)
    let d2 := draw d1.2
    let color := TETROMINO_COLORS.getD (d2.1 % TETROMINO_COLORS.length) (0, 0, 0)
    { d2.2 with grid :=
        d2.2.grid.set pos.2 ((d2.2.grid.getD pos.2 []).set pos.1 (some color)) }

/-- The gravity stage of `TetrisGame.update` (after `fall_time += dt`): when
the accumulated fall time reaches the fall speed, move down once and reset the
timer. -/
def TetrisGame.updateGravity (g : TetrisGame) : TetrisGame :=
  if g.fall_speed ≤ g.fall_time then
    { (g.move_piece 0 1).2 with fall_time := 0 }
  else g

/-- The clear-animation stage of `TetrisGame.update`: while rows are pending,
advance the animation clock by `dt` and complete the clear once it reaches the
800 ms duration. -/
def TetrisGame.updateClearing (g : TetrisGame) (dt : Nat) : TetrisGame :=
  if g.lines_clearing ≠ [] then
    if 800 ≤ g.clear_animation_time + dt then
      TetrisGame.finish_line_clear
        { g with clear_animation_time := g.clear_animation_time + dt }
    else { g with clear_animation_time := g.clear_animation_time + dt }
  else g

/-- The random-block stage of `TetrisGame.update`: when enabled, accumulate
`dt`; on expiry inject one block, reset the timer and redraw the interval. -/
def TetrisGame.updateRandom (g : TetrisGame) (dt : Nat) : TetrisGame :=
  if g.random_blocks_enabled = true then
    if g.random_block_interval ≤ g.random_block_time + dt then
      let g5 := TetrisGame.spawn_random_block
        { g with random_block_time := g.random_block_time + dt }
      let d := draw g5
      { d.2 with random_block_time := 0, random_block_interval := 15000 + d.1 % 15001 }
    else { g with random_block_time := g.random_block_time + dt }
  else g

/-- `TetrisGame.update(dt)`: gravity, clear-animation advance, and random
block injection, in source order (particle physics omitted: pure
presentation). -/
def TetrisGame.update (g : TetrisGame) (dt : Nat) : TetrisGame :=
  if g.game_over = true ∨ g.paused = true then g
  else
    TetrisGame.updateRandom
      (TetrisGame.updateClearing
        (TetrisGame.updateGravity { g with fall_time := g.fall_time + dt }) dt) dt

/-- `TetrisGame.__init__`: fresh session, one interval draw, then two spawns
(the first only fills the next-piece slot, the second promotes it). -/
def TetrisGame.initGame (rng : List Nat) : TetrisGame :=
  let g0 : TetrisGame := {
    grid := List.replicate GRID_HEIGHT (List.replicate GRID_WIDTH none),
    current_piece := none,
    next_piece := none,
    score := 0,
    lines_cleared := 0,
    level := 1,
    game_over := false,
    paused := false,
    fall_time := 0,
    fall_speed := 1000,
    random_block_time := 0,
    random_block_interval := 0,
    random_blocks_enabled := false,
    lines_clearing := [],
    clear_animation_time := 0,
    rng := rng }
  let d := draw g0
  let g1 := { d.2 with random_block_interval := 15000 + d.1 % 15001 }
  (g1.spawn_new_piece).spawn_new_piece

/-- The logical input commands of `TetrisGame.handle_events`, plus the tick. -/
inductive Cmd where
  | moveLeft
  | moveRight
  | softDrop
  | rotateCW
  | hardDrop
  | togglePause
  | toggleRandom
  | restart
  | tick (dt : Nat)
deriving DecidableEq

/-- Dispatch of `handle_events` (R, P and B work in any state; movement keys
only while neither game over nor paused) and of the per-frame `update`. -/
def TetrisGame.applyCmd (g : TetrisGame) : Cmd → TetrisGame
  | .restart => TetrisGame.initGame g.rng
  | .togglePause => { g with paused := !g.paused }
  | .toggleRandom => { g with random_blocks_enabled := !g.random_blocks_enabled }
  | .moveLeft =>
      if g.game_over = false ∧ g.paused = false then (g.move_piece (-1) 0).2 else g
  | .moveRight =>
      if g.game_over = false ∧ g.paused = false then (g.move_piece 1 0).2 else g
  | .softDrop =>
      if g.game_over = false ∧ g.paused = false then (g.move_piece 0 1).2 else g
  | .rotateCW =>
      if g.game_over = false ∧ g.paused = false then g.rotate_piece else g
  | .hardDrop =>
      if g.game_over = false ∧ g.paused = false then g.hard_drop else g
  | .tick dt => g.update dt

/-- Run a command sequence. -/
def applyCmds (g : TetrisGame) (l : List Cmd) : TetrisGame :=
  l.foldl TetrisGame.applyCmd g

/-- The states a game session can reach: a fresh session under any randomness
oracle, closed under all commands. -/
inductive Reachable : TetrisGame → Prop where
  | init (rng : List Nat) : Reachable (TetrisGame.initGame rng)
  | step (g : TetrisGame) (c : Cmd) : Reachable g → Reachable (g.applyCmd c)

/-! ### Generic list lemmas -/

theorem headD_getD (l : List α) (d : α) : l.headD d = l.getD 0 d := by
  cases l <;> rfl

theorem getD_set (l : List α) (i j : Nat) (a d : α) :
    (l.set i a).getD j d = if i = j ∧ j < l.length then a else l.getD j d := by
  rw [List.getD_eq_getElem?_getD, List.getElem?_set, List.getD_eq_getElem?_getD]
  by_cases hij : i = j
  · subst hij
    by_cases hi : i < l.length
    · simp [hi]
    · rw [if_pos rfl, if_neg hi, if_neg (by omega)]
      rw [List.getElem?_eq_none (by omega)]
  · rw [if_neg hij, if_neg (by tauto)]

theorem getD_mem (l : List α) (i : Nat) (d : α) (h : i < l.length) :
    l.getD i d ∈ l := by
  rw [List.getD_eq_getElem l d h]
  exact List.getElem_mem h

theorem getD_map_range {α : Type _} (n : Nat) (f : Nat → α) (d : α) (i : Nat)
    (h : i < n) : ((List.range n).map f).getD i d = f i := by
  rw [List.getD_eq_getElem _ _ (by simpa using h)]
  simp

theorem getD_replicate {α : Type _} (n i : Nat) (a d : α) (h : i < n) :
    (List.replicate n a).getD i d = a := by
  rw [List.getD_eq_getElem _ _ (by simpa using h)]
  simp

/-! ### Small facts about the embedded operations -/

theorem rowFull_set_some (r : List (Option Color)) (i : Nat) (c : Color)
    (h : rowFull r = true) : rowFull (r.set i (some c)) = true := by
  rw [rowFull, List.all_eq_true]
  intro x hx
  rcases List.mem_or_eq_of_mem_set hx with hmem | rfl
  · exact (List.all_eq_true.mp h) x hmem
  · rfl

theorem mem_sortDesc (x : Nat) (l : List Nat) : x ∈ sortDesc l ↔ x ∈ l := by
  have hins : ∀ (a : Nat) (m : List Nat), x ∈ insertDesc a m ↔ x = a ∨ x ∈ m := by
    intro a m
    induction m with
    | nil => simp [insertDesc]
    | cons b t ih =>
        by_cases hba : b ≤ a
        · simp [insertDesc, hba, List.mem_cons]
        · simp only [insertDesc, if_neg hba, List.mem_cons, ih]
          tauto
  rw [sortDesc]
  induction l with
  | nil => simp
  | cons a t ih => simp [List.foldr_cons, hins, ih, List.mem_cons]

theorem mem_fullRowsOf (grid : Grid) (y : Nat) :
    y ∈ fullRowsOf grid ↔ y < GRID_HEIGHT ∧ rowFull (grid.getD y []) = true := by
  simp [fullRowsOf, List.mem_filter, List.mem_range]

/-- `spawn_new_piece` reads and writes only the piece slots, the game-over
flag and the randomness oracle. -/
theorem spawn_fields (g : TetrisGame) :
    (g.spawn_new_piece).grid = g.grid ∧
    (g.spawn_new_piece).lines_clearing = g.lines_clearing ∧
    (g.spawn_new_piece).score = g.score ∧
    (g.spawn_new_piece).lines_cleared = g.lines_cleared ∧
    (g.spawn_new_piece).level = g.level ∧
    (g.spawn_new_piece).fall_speed = g.fall_speed := by
  rw [TetrisGame.spawn_new_piece]
  cases g.next_piece with
  | none => exact ⟨rfl, rfl, rfl, rfl, rfl, rfl⟩
  | some np =>
      dsimp only
      split <;> exact ⟨rfl, rfl, rfl, rfl, rfl, rfl⟩

/-- `finish_line_clear` never touches the piece slots, the pause/game-over
flags or the random-block machinery. -/
theorem finish_fields (g : TetrisGame) :
    (g.finish_line_clear).current_piece = g.current_piece ∧
    (g.finish_line_clear).next_piece = g.next_piece ∧
    (g.finish_line_clear).random_blocks_enabled = g.random_blocks_enabled ∧
    (g.finish_line_clear).game_over = g.game_over ∧
    (g.finish_line_clear).paused = g.paused := by
  rw [TetrisGame.finish_line_clear]
  split <;> exact ⟨rfl, rfl, rfl, rfl, rfl⟩

/-! ### Claim 3: blocked spawn sets game over and leaves the grid alone -/

/-- Claim C3: whenever the next piece is promoted into an invalid initial
position, the spawn sets `game_over` and leaves every cell of the grid exactly
as it was: the grid is not cleared and the piece is not committed. -/
theorem claim3_theorem (g : TetrisGame) (np : Tetromino)
    (h : g.next_piece = some np) (hbad : g.is_valid_position np = false) :
    (g.spawn_new_piece).game_over = true ∧ (g.spawn_new_piece).grid = g.grid := by
  rw [TetrisGame.is_valid_position] at hbad
  rw [TetrisGame.spawn_new_piece, h]
  dsimp only
  rw [if_pos (by rw [TetrisGame.is_valid_position]; exact hbad)]
  exact ⟨rfl, rfl⟩

def emptyRow : List (Option Color) := List.replicate GRID_WIDTH none

/-- A convenient base session state for concrete witnesses. -/
def blankGame : TetrisGame := {
  grid := List.replicate GRID_HEIGHT emptyRow,
  current_piece := none,
  next_piece := none,
  score := 0,
  lines_cleared := 0,
  level := 1,
  game_over := false,
  paused := false,
  fall_time := 0,
  fall_speed := 1000,
  random_block_time := 0,
  random_block_interval := 20000,
  random_blocks_enabled := false,
  lines_clearing := [],
  clear_animation_time := 0,
  rng := [] }

def gW3 : TetrisGame :=
  { blankGame with
      grid := ((emptyRow.set 4 (some (255, 0, 0))).set 5 (some (255, 0, 0))) ::
        List.replicate 19 emptyRow,
      next_piece := some (mkTetromino 4 0 1) }

/-- Witness for C3: an O piece spawning at the centre of a top row whose
centre cells are occupied flags game over and leaves the grid unchanged. -/
theorem claim3_witness :
    gW3.next_piece = some (mkTetromino 4 0 1) ∧
    gW3.is_valid_position (mkTetromino 4 0 1) = false ∧
    ((gW3.spawn_new_piece).game_over = true ∧ (gW3.spawn_new_piece).grid = gW3.grid) :=
  ⟨rfl, by decide, claim3_theorem gW3 (mkTetromino 4 0 1) rfl (by decide)⟩

/-! ### Claim 4: move semantics -/

/-- Characterisation of `move_piece`, used both for claim C4 and for the
session invariant. -/
theorem move_piece_spec (g : TetrisGame) (p : Tetromino) (dx dy : Int)
    (h : g.current_piece = some p) :
    (g.is_valid_position { p with x := p.x + dx, y := p.y + dy } = true →
      g.move_piece dx dy =
        (true, { g with current_piece := some { p with x := p.x + dx, y := p.y + dy } })) ∧
    (g.is_valid_position { p with x := p.x + dx, y := p.y + dy } = false → dy ≤ 0 →
      g.move_piece dx dy = (false, g)) ∧
    (g.is_valid_position { p with x := p.x + dx, y := p.y + dy } = false → 0 < dy →
      g.move_piece dx dy =
        (false, (TetrisGame.clear_lines { g with grid := commitPiece g.grid p }).spawn_new_piece)) := by
  rw [TetrisGame.move_piece, h]
  dsimp only
  refine ⟨fun hv => ?_, fun hv hdy => ?_, fun hv hdy => ?_⟩
  · rw [if_neg (by simp [hv])]
  · rw [if_pos (by simp [hv]), if_neg (by omega)]
  · rw [if_pos (by simp [hv]), if_pos hdy, TetrisGame.place_piece, h]

/-- Claim C4: `move_piece` tentatively applies the offset; a valid result is
kept and reported as success; an invalid result is rolled back to the prior
position and reported as failure, and exactly when the move was downward
(`dy > 0`) the piece is committed at its prior (last valid) position followed
by line-clear detection and the next spawn. -/
theorem claim4_theorem (g : TetrisGame) (p : Tetromino) (dx dy : Int)
    (h : g.current_piece = some p) :
    (g.is_valid_position { p with x := p.x + dx, y := p.y + dy } = true →
      g.move_piece dx dy =
        (true, { g with current_piece := some { p with x := p.x + dx, y := p.y + dy } })) ∧
    (g.is_valid_position { p with x := p.x + dx, y := p.y + dy } = false → dy ≤ 0 →
      g.move_piece dx dy = (false, g)) ∧
    (g.is_valid_position { p with x := p.x + dx, y := p.y + dy } = false → 0 < dy →
      g.move_piece dx dy =
        (false, (TetrisGame.clear_lines { g with grid := commitPiece g.grid p }).spawn_new_piece)) :=
  move_piece_spec g p dx dy h

def gW4 : TetrisGame :=
  { blankGame with current_piece := some (mkTetromino 4 18 1),
                   next_piece := some (mkTetromino 4 0 2) }

/-- Witness for C4: an O piece resting on the floor; moving it down fails,
rolls back, and commits the piece at its last valid position. -/
theorem claim4_witness :
    gW4.current_piece = some (mkTetromino 4 18 1) ∧
    gW4.is_valid_position
      { mkTetromino 4 18 1 with x := (mkTetromino 4 18 1).x + 0,
                                y := (mkTetromino 4 18 1).y + 1 } = false ∧
    gW4.move_piece 0 1 =
      (false, (TetrisGame.clear_lines
        { gW4 with grid := commitPiece gW4.grid (mkTetromino 4 18 1) }).spawn_new_piece) :=
  ⟨rfl, by decide,
    (claim4_theorem gW4 (mkTetromino 4 18 1) 0 1 rfl).2.2 (by decide) (by decide)⟩

/-! ### Claim 9: an invalid rotation is a silent no-op -/

/-- Claim C9: when rotating the current piece would give an invalid position,
`rotate_piece` changes nothing at all — the shape matrix, the piece origin and
the grid are all left byte-for-byte unchanged, with no wall kick and no
error. -/
theorem claim9_theorem (g : TetrisGame) (p : Tetromino)
    (h : g.current_piece = some p)
    (hbad : g.is_valid_position p.rotate = false) :
    g.rotate_piece = g := by
  rw [TetrisGame.rotate_piece, h]
  dsimp only
  rw [if_pos (by simp [hbad])]

def gW9 : TetrisGame :=
  { blankGame with
      grid := emptyRow :: (emptyRow.set 2 (some (255, 0, 0))) :: List.replicate 18 emptyRow,
      current_piece := some (mkTetromino 2 0 0) }

/-- Witness for C9: a horizontal I piece whose clockwise rotation would hit a
placed block is left entirely unchanged by `rotate_piece`. -/
theorem claim9_witness :
    gW9.current_piece = some (mkTetromino 2 0 0) ∧
    gW9.is_valid_position (mkTetromino 2 0 0).rotate = false ∧
    gW9.rotate_piece = gW9 :=
  ⟨rfl, by decide, claim9_theorem gW9 (mkTetromino 2 0 0) rfl (by decide)⟩

/-! ### Claim 6: the validity predicate, characterised cell by cell -/

theorem bool_not_ne_true (b : Bool) : ((!b) ≠ true) ↔ b = true := by
  cases b <;> simp

theorem validPos_false_iff (grid : Grid) (p : Tetromino) :
    validPos grid p = false ↔
      ∃ pos ∈ p.get_positions,
        pos.1 < 0 ∨ (GRID_WIDTH : Int) ≤ pos.1 ∨ (GRID_HEIGHT : Int) ≤ pos.2 ∨
          (0 ≤ pos.2 ∧ cellOccupied grid pos.2 pos.1 = true) := by
  rw [show (validPos grid p = false) ↔ ¬(validPos grid p = true) by simp]
  rw [validPos, List.all_eq_true]
  push_neg
  simp only [bool_not_ne_true, Bool.or_eq_true, Bool.and_eq_true, decide_eq_true_eq,
    or_assoc]

/-- Claim C6: `is_valid_position` returns `false` iff some occupied cell
violates the bounds (`x < 0`, `x ≥ 10`, `y ≥ 20`) or, at `y ≥ 0`, collides
with an occupied grid cell; and since cells with `y < 0` are exempt from the
collision check, a piece partially above the visible field can still be
valid. -/
theorem claim6_theorem :
    (∀ (g : TetrisGame) (p : Tetromino),
      g.is_valid_position p = false ↔
        ∃ pos ∈ p.get_positions,
          pos.1 < 0 ∨ (GRID_WIDTH : Int) ≤ pos.1 ∨ (GRID_HEIGHT : Int) ≤ pos.2 ∨
            (0 ≤ pos.2 ∧ cellOccupied g.grid pos.2 pos.1 = true)) ∧
    (∃ (g : TetrisGame) (p : Tetromino),
      (∃ pos ∈ p.get_positions, pos.2 < 0) ∧ g.is_valid_position p = true) :=
  ⟨fun g p => validPos_false_iff g.grid p,
   ⟨blankGame, mkTetromino 4 (-1) 0, by decide, by decide⟩⟩

/-! ### Claim 1: what the clear-pending window does and does not suspend -/

/-- Shape of a tick on which gravity does not fire, random blocks are off and
a clear is pending: only the fall timer and animation clock advance, and the
clear completes exactly when the clock reaches 800. -/
theorem updateGravity_noFire (g : TetrisGame)
    (h : ¬(g.fall_speed ≤ g.fall_time)) : g.updateGravity = g := by
  rw [TetrisGame.updateGravity, if_neg h]

theorem updateRandom_off (g : TetrisGame) (dt : Nat)
    (h : g.random_blocks_enabled = false) : g.updateRandom dt = g := by
  rw [TetrisGame.updateRandom, if_neg (by simp [h])]

theorem update_clearing_only (g : TetrisGame) (dt : Nat)
    (hgo : ¬(g.game_over = true ∨ g.paused = true))
    (hcl : g.lines_clearing ≠ [])
    (hfall : g.fall_time + dt < g.fall_speed)
    (hrb : g.random_blocks_enabled = false) :
    g.update dt =
      (if 800 ≤ g.clear_animation_time + dt then
        TetrisGame.finish_line_clear
          { g with fall_time := g.fall_time + dt,
                   clear_animation_time := g.clear_animation_time + dt }
      else
        { g with fall_time := g.fall_time + dt,
                 clear_animation_time := g.clear_animation_time + dt }) := by
  rw [TetrisGame.update, if_neg hgo]
  rw [updateGravity_noFire { g with fall_time := g.fall_time + dt }
    (show ¬(({ g with fall_time := g.fall_time + dt } : TetrisGame).fall_speed ≤
      ({ g with fall_time := g.fall_time + dt } : TetrisGame).fall_time) by
        dsimp only; omega)]
  rw [TetrisGame.updateClearing]
  rw [if_pos
    (show ({ g with fall_time := g.fall_time + dt } : TetrisGame).lines_clearing ≠ [] from hcl)]
  by_cases h8 : 800 ≤ g.clear_animation_time + dt
  · rw [if_pos (show 800 ≤
        ({ g with fall_time := g.fall_time + dt } : TetrisGame).clear_animation_time + dt from h8)]
    have hro : (TetrisGame.finish_line_clear
        { g with fall_time := g.fall_time + dt,
                 clear_animation_time := g.clear_animation_time + dt }).random_blocks_enabled
        = false := by
      rw [(finish_fields _).2.2.1]
      exact hrb
    change TetrisGame.updateRandom (TetrisGame.finish_line_clear
      { g with fall_time := g.fall_time + dt,
               clear_animation_time := g.clear_animation_time + dt }) dt = _
    rw [updateRandom_off _ dt hro]
  · rw [if_neg (show ¬(800 ≤
        ({ g with fall_time := g.fall_time + dt } : TetrisGame).clear_animation_time + dt) from h8)]
    change TetrisGame.updateRandom
      { g with fall_time := g.fall_time + dt,
               clear_animation_time := g.clear_animation_time + dt } dt = _
    have hrb2 : ({ g with fall_time := g.fall_time + dt, clear_animation_time := g.clear_animation_time + dt } : TetrisGame).random_blocks_enabled = false := hrb
    rw [updateRandom_off _ dt hrb2]

/-- A spawn with a waiting next piece always promotes it to current. -/
theorem spawn_current (g : TetrisGame) (np : Tetromino)
    (h : g.next_piece = some np) :
    (g.spawn_new_piece).current_piece = some np := by
  rw [TetrisGame.spawn_new_piece, h]
  dsimp only
  split_ifs <;> rfl

/-- Line-clear detection never touches the next-piece slot. -/
theorem clear_lines_next (g : TetrisGame) :
    (g.clear_lines).next_piece = g.next_piece := by
  rw [TetrisGame.clear_lines]
  split_ifs
  · exact (finish_fields g).2.1
  · rfl

/-- Claim C1 (amended): while a clear is pending, the clear engine itself
never spawns — a tick on which the falling piece does not land leaves both
piece slots unchanged — but a piece placement always promotes the next piece
to current immediately, pending clear or not. -/
theorem claim1_theorem (g : TetrisGame) (dt : Nat)
    (hcl : g.lines_clearing ≠ [])
    (hfall : g.fall_time + dt < g.fall_speed)
    (hrb : g.random_blocks_enabled = false) :
    ((g.update dt).current_piece = g.current_piece ∧
     (g.update dt).next_piece = g.next_piece) ∧
    (∀ p np : Tetromino, g.current_piece = some p → g.next_piece = some np →
      (g.place_piece).current_piece = some np) := by
  constructor
  · by_cases hgo : g.game_over = true ∨ g.paused = true
    · rw [TetrisGame.update, if_pos hgo]
      exact ⟨rfl, rfl⟩
    · rw [update_clearing_only g dt hgo hcl hfall hrb]
      by_cases h8 : 800 ≤ g.clear_animation_time + dt
      · rw [if_pos h8]
        exact ⟨(finish_fields _).1, (finish_fields _).2.1⟩
      · rw [if_neg h8]
        exact ⟨rfl, rfl⟩
  · intro p np hc hn
    rw [TetrisGame.place_piece, hc]
    apply spawn_current
    rw [clear_lines_next]
    exact hn

/-! ### Claim 7: four clockwise rotations are the identity -/

/-- Entry `(i, j)` of a shape matrix, with `0` beyond the bounds. -/
def entryAt (s : List (List Nat)) (i j : Nat) : Nat :=
  (s.getD i []).getD j 0

/-- The number of set (non-zero) cells of a shape matrix. -/
def countCells (s : List (List Nat)) : Nat :=
  (s.map (fun row => row.countP (fun v => !(v == 0)))).sum

theorem rot_length (s : List (List Nat)) :
    (rotateShape s).length = (s.headD []).length := by
  simp [rotateShape]

theorem rot_row_length (s : List (List Nat)) :
    ∀ row ∈ rotateShape s, row.length = s.length := by
  intro row h
  rw [rotateShape] at h
  simp only [List.mem_map, List.mem_range] at h
  obtain ⟨i, _, rfl⟩ := h
  simp

theorem rot_head_length (s : List (List Nat)) (h : 0 < (s.headD []).length) :
    ((rotateShape s).headD []).length = s.length := by
  rw [headD_getD, rotateShape]
  rw [getD_map_range _ _ _ 0 h]
  simp

theorem rot_entry (s : List (List Nat)) (i j : Nat)
    (hi : i < (s.headD []).length) (hj : j < s.length) :
    entryAt (rotateShape s) i j = entryAt s (s.length - 1 - j) i := by
  rw [entryAt, rotateShape]
  rw [getD_map_range _ _ _ i hi, getD_map_range _ _ _ j hj]
  rfl

theorem list_countP_eq_sum (l : List α) (p : α → Bool) (d : α) :
    l.countP p = ∑ i ∈ Finset.range l.length, if p (l.getD i d) = true then 1 else 0 := by
  induction l with
  | nil => simp
  | cons a t ih =>
      rw [List.countP_cons, List.length_cons, Finset.sum_range_succ', ih]
      simp only [List.getD_cons_succ, List.getD_cons_zero]

theorem list_map_sum_eq (s : List α) (f : α → Nat) (d : α) :
    (s.map f).sum = ∑ i ∈ Finset.range s.length, f (s.getD i d) := by
  induction s with
  | nil => simp
  | cons a t ih =>
      rw [List.map_cons, List.sum_cons, List.length_cons, Finset.sum_range_succ', ih]
      simp only [List.getD_cons_succ, List.getD_cons_zero]
      omega

/-- `countCells` as a double sum over the index rectangle, for a rectangular
shape. -/
theorem countCells_eq_sum (s : List (List Nat))
    (hrect : ∀ row ∈ s, row.length = (s.headD []).length) :
    countCells s = ∑ i ∈ Finset.range s.length,
      ∑ j ∈ Finset.range (s.headD []).length,
        if entryAt s i j ≠ 0 then 1 else 0 := by
  rw [countCells, list_map_sum_eq _ _ []]
  apply Finset.sum_congr rfl
  intro i hi
  rw [Finset.mem_range] at hi
  rw [list_countP_eq_sum _ _ 0, hrect _ (getD_mem s i [] hi)]
  apply Finset.sum_congr rfl
  intro j hj
  refine if_congr ?_ rfl rfl
  rw [entryAt]
  simp

/-- A single clockwise rotation preserves the number of set cells. -/
theorem countCells_rot (s : List (List Nat))
    (hcols : (s.headD []).length ≠ 0)
    (hrect : ∀ row ∈ s, row.length = (s.headD []).length) :
    countCells (rotateShape s) = countCells s := by
  have hC : 0 < (s.headD []).length := Nat.pos_of_ne_zero hcols
  have hrect1 : ∀ row ∈ rotateShape s, row.length = ((rotateShape s).headD []).length := by
    intro row h
    rw [rot_head_length s hC]
    exact rot_row_length s row h
  rw [countCells_eq_sum _ hrect1, countCells_eq_sum s hrect]
  rw [rot_length, rot_head_length s hC]
  rw [Finset.sum_comm]
  calc
    ∑ j ∈ Finset.range s.length, ∑ i ∈ Finset.range (s.headD []).length,
        (if entryAt (rotateShape s) i j ≠ 0 then 1 else 0)
      = ∑ j ∈ Finset.range s.length, ∑ i ∈ Finset.range (s.headD []).length,
          (if entryAt s (s.length - 1 - j) i ≠ 0 then 1 else 0) := by
        apply Finset.sum_congr rfl
        intro j hj
        apply Finset.sum_congr rfl
        intro i hi
        rw [rot_entry s i j (Finset.mem_range.mp hi) (Finset.mem_range.mp hj)]
    _ = ∑ j ∈ Finset.range s.length, ∑ i ∈ Finset.range (s.headD []).length,
          (if entryAt s j i ≠ 0 then 1 else 0) :=
        Finset.sum_range_reflect
          (fun r => ∑ i ∈ Finset.range (s.headD []).length,
            (if entryAt s r i ≠ 0 then 1 else 0)) s.length

theorem list_ext_getD (l₁ l₂ : List α) (d : α) (hlen : l₁.length = l₂.length)
    (h : ∀ i, i < l₁.length → l₁.getD i d = l₂.getD i d) : l₁ = l₂ := by
  apply List.ext_getElem hlen
  intro n h1 h2
  rw [← List.getD_eq_getElem l₁ d h1, ← List.getD_eq_getElem l₂ d h2]
  exact h n h1

theorem shape_ext (g1 g2 : List (List Nat)) (hlen : g1.length = g2.length)
    (hrows : ∀ i, i < g1.length → (g1.getD i []).length = (g2.getD i []).length)
    (hent : ∀ i j, i < g1.length → j < (g1.getD i []).length →
      entryAt g1 i j = entryAt g2 i j) :
    g1 = g2 := by
  apply list_ext_getD _ _ [] hlen
  intro i hi
  apply list_ext_getD _ _ 0 (hrows i hi)
  intro j hj
  exact hent i j hi hj

/-- Four clockwise rotations restore a non-empty rectangular shape
cell-for-cell. -/
theorem rot_four (s : List (List Nat)) (hne : s ≠ [])
    (hcols : (s.headD []).length ≠ 0)
    (hrect : ∀ row ∈ s, row.length = (s.headD []).length) :
    rotateShape (rotateShape (rotateShape (rotateShape s))) = s := by
  have hR : 0 < s.length := List.length_pos.mpr hne
  have hC : 0 < (s.headD []).length := Nat.pos_of_ne_zero hcols
  have h1len : (rotateShape s).length = (s.headD []).length := rot_length s
  have h1head : ((rotateShape s).headD []).length = s.length := rot_head_length s hC
  have h2len : (rotateShape (rotateShape s)).length = s.length := by
    rw [rot_length, h1head]
  have h2head :
      ((rotateShape (rotateShape s)).headD []).length = (s.headD []).length := by
    rw [rot_head_length _ (by rw [h1head]; exact hR), h1len]
  have h3len :
      (rotateShape (rotateShape (rotateShape s))).length = (s.headD []).length := by
    rw [rot_length, h2head]
  have h3head :
      ((rotateShape (rotateShape (rotateShape s))).headD []).length = s.length := by
    rw [rot_head_length _ (by rw [h2head]; exact hC), h2len]
  have h4len :
      (rotateShape (rotateShape (rotateShape (rotateShape s)))).length = s.length := by
    rw [rot_length, h3head]
  have h4rows : ∀ row ∈ rotateShape (rotateShape (rotateShape (rotateShape s))),
      row.length = (s.headD []).length := by
    intro row h
    rw [← h3len]
    exact rot_row_length _ row h
  apply shape_ext _ _ h4len
  · intro i hi
    rw [h4rows _ (getD_mem _ i [] hi), hrect _ (getD_mem s i [] (by rw [← h4len]; exact hi))]
  · intro i j hi hj
    have hiR : i < s.length := by rw [← h4len]; exact hi
    have hjC : j < (s.headD []).length := by
      rw [← h4rows _ (getD_mem _ i [] hi)]; exact hj
    rw [rot_entry (rotateShape (rotateShape (rotateShape s))) i j
      (by rw [h3head]; exact hiR) (by rw [h3len]; exact hjC)]
    rw [h3len]
    rw [rot_entry (rotateShape (rotateShape s)) ((s.headD []).length - 1 - j) i
      (by rw [h2head]; omega) (by rw [h2len]; exact hiR)]
    rw [h2len]
    rw [rot_entry (rotateShape s) (s.length - 1 - i) ((s.headD []).length - 1 - j)
      (by rw [h1head]; omega) (by rw [h1len]; omega)]
    rw [h1len]
    rw [show (s.headD []).length - 1 - ((s.headD []).length - 1 - j) = j by omega]
    rw [rot_entry s j (s.length - 1 - i) hjC (by omega)]
    rw [show s.length - 1 - (s.length - 1 - i) = i by omega]

/-- Claim C7: for every non-empty rectangular shape matrix, four successive
90-degree clockwise rotations (`new[c][rows-1-r] = old[r][c]`) restore the
shape cell-for-cell, and a single rotation preserves the number of set
cells. -/
theorem claim7_theorem (s : List (List Nat)) (hne : s ≠ [])
    (hcols : (s.headD []).length ≠ 0)
    (hrect : ∀ row ∈ s, row.length = (s.headD []).length) :
    rotateShape (rotateShape (rotateShape (rotateShape s))) = s ∧
    countCells (rotateShape s) = countCells s :=
  ⟨rot_four s hne hcols hrect, countCells_rot s hcols hrect⟩

/-- Witness for C7: the T tetromino shape. -/
theorem claim7_witness :
    ([[1, 1, 1], [0, 1, 0]] : List (List Nat)) ≠ [] ∧
    (([[1, 1, 1], [0, 1, 0]] : List (List Nat)).headD []).length ≠ 0 ∧
    (∀ row ∈ ([[1, 1, 1], [0, 1, 0]] : List (List Nat)),
      row.length = (([[1, 1, 1], [0, 1, 0]] : List (List Nat)).headD []).length) ∧
    (rotateShape (rotateShape (rotateShape (rotateShape [[1, 1, 1], [0, 1, 0]]))) =
        ([[1, 1, 1], [0, 1, 0]] : List (List Nat)) ∧
      countCells (rotateShape [[1, 1, 1], [0, 1, 0]]) =
        countCells ([[1, 1, 1], [0, 1, 0]] : List (List Nat))) :=
  ⟨by decide, by decide, by decide,
    claim7_theorem [[1, 1, 1], [0, 1, 0]] (by decide) (by decide) (by decide)⟩

def rngS : List Nat := [1, 1, 1, 1, 1, 1, 1, 2, 3]

def cmdsS : List Cmd :=
  [.moveLeft, .moveLeft, .moveLeft, .moveLeft, .hardDrop,
   .moveLeft, .moveLeft, .hardDrop,
   .hardDrop,
   .moveRight, .moveRight, .hardDrop,
   .moveRight, .moveRight, .moveRight, .moveRight, .hardDrop]

/-- A reachable state obtained by dropping five O pieces flat across the
floor: its bottom two rows are full and mid-clear-animation, while the next
(sixth) O piece has just spawned. -/
def gS : TetrisGame := applyCmds (TetrisGame.initGame rngS) cmdsS

theorem reachable_applyCmds (g : TetrisGame) (l : List Cmd) (h : Reachable g) :
    Reachable (applyCmds g l) := by
  induction l generalizing g with
  | nil => exact h
  | cons c t ih => exact ih _ (Reachable.step g c h)

/-- Counterexample to claim C1 as stated: `gS` is reachable and has the
non-empty pending-clear set `[18, 19]` (its clear animation has not
completed), yet a hard drop from `gS` — a piece placement — promotes the next
piece (a T, shape index 2) to current and creates a new next piece (an L,
shape index 3), with the rows still pending clear afterwards. -/
theorem claim1_counterexample :
    Reachable gS ∧
    (gS.lines_clearing = [18, 19] ∧
     gS.game_over = false ∧ gS.paused = false ∧
     gS.current_piece = some (mkTetromino 4 0 1) ∧
     gS.next_piece = some (mkTetromino 4 0 2) ∧
     (gS.applyCmd Cmd.hardDrop).current_piece = some (mkTetromino 4 0 2) ∧
     (gS.applyCmd Cmd.hardDrop).next_piece = some (mkTetromino 4 0 3) ∧
     (gS.applyCmd Cmd.hardDrop).lines_clearing = [18, 19]) :=
  ⟨reachable_applyCmds _ _ (Reachable.init rngS), by decide⟩

/-- Witness for the amended C1: from the reachable mid-clear state `gS`, a
100 ms tick (gravity threshold not reached) spawns nothing. -/
theorem claim1_witness :
    gS.lines_clearing ≠ [] ∧
    gS.fall_time + 100 < gS.fall_speed ∧
    gS.random_blocks_enabled = false ∧
    ((gS.update 100).current_piece = gS.current_piece ∧
     (gS.update 100).next_piece = gS.next_piece) :=
  ⟨by decide, by decide, by decide,
   (claim1_theorem gS 100 (by decide) (by decide) (by decide)).1⟩

/-! ### Claim 2: compaction timing and the score/level/speed update -/

/-- The effect of `finish_line_clear` on a state with a non-empty pending
set, field by field. -/
theorem finish_proj (g : TetrisGame) (hcl : g.lines_clearing ≠ []) :
    (g.finish_line_clear).grid = compactGrid g.grid g.lines_clearing ∧
    (g.finish_line_clear).lines_clearing = [] ∧
    (g.finish_line_clear).score = g.score + g.lines_clearing.length * 100 * g.level ∧
    (g.finish_line_clear).lines_cleared = g.lines_cleared + g.lines_clearing.length ∧
    (g.finish_line_clear).level = (g.lines_cleared + g.lines_clearing.length) / 10 + 1 ∧
    (g.finish_line_clear).fall_speed =
      (max 100 (1000 -
        ((((g.lines_cleared + g.lines_clearing.length) / 10 + 1 : Nat) : Int) - 1) * 100)).toNat := by
  rw [TetrisGame.finish_line_clear, if_neg hcl]
  exact ⟨rfl, rfl, rfl, rfl, rfl, rfl⟩


/-! ### Claim 5: hard drop -/

/-- The current piece translated down by `k` rows. -/
def shiftDown (p : Tetromino) (k : Nat) : Tetromino :=
  { p with y := p.y + (k : Int) }

theorem shiftDown_zero (p : Tetromino) : shiftDown p 0 = p := by
  simp [shiftDown]

theorem shiftDown_add (p : Tetromino) (a b : Nat) :
    shiftDown (shiftDown p a) b = shiftDown p (a + b) := by
  simp [shiftDown, Nat.cast_add, add_assoc]

theorem mem_get_positions (p : Tetromino) (pos : Int × Int) :
    pos ∈ p.get_positions ↔
      ∃ r < p.shape.length, ∃ c < (p.shape.headD []).length,
        (p.shape.getD r []).getD c 0 ≠ 0 ∧ pos = (p.x + (c : Int), p.y + (r : Int)) := by
  rw [Tetromino.get_positions]
  simp only [List.mem_flatMap, List.mem_filterMap, List.mem_range]
  constructor
  · rintro ⟨r, hr, c, hc, hsome⟩
    by_cases hnz : (p.shape.getD r []).getD c 0 ≠ 0
    · rw [if_pos hnz] at hsome
      exact ⟨r, hr, c, hc, hnz, (Option.some_inj.mp hsome).symm⟩
    · rw [if_neg hnz] at hsome
      cases hsome
  · rintro ⟨r, hr, c, hc, hnz, rfl⟩
    exact ⟨r, hr, c, hc, by rw [if_pos hnz]⟩

theorem get_positions_y_le (p : Tetromino) (pos : Int × Int)
    (h : pos ∈ p.get_positions) : p.y ≤ pos.2 := by
  rw [mem_get_positions] at h
  obtain ⟨r, _, c, _, _, rfl⟩ := h
  have : (0 : Int) ≤ (r : Int) := Int.natCast_nonneg r
  dsimp only
  omega

theorem get_positions_shift (p : Tetromino) (k : Nat) :
    (shiftDown p k).get_positions =
      p.get_positions.map (fun q => (q.1, q.2 + (k : Int))) := by
  rw [Tetromino.get_positions, Tetromino.get_positions, List.map_flatMap]
  dsimp only [shiftDown]
  congr 1
  funext r
  rw [List.map_filterMap]
  congr 1
  funext c
  by_cases hnz : (p.shape.getD r []).getD c 0 ≠ 0
  · rw [if_pos hnz, if_pos hnz]
    simp only [Option.map_some']
    rw [Option.some_inj, Prod.mk.injEq]
    exact ⟨rfl, by ring⟩
  · rw [if_neg hnz, if_neg hnz]
    rfl

/-- If the piece is committed with the same suppressed value, the state is
unchanged. -/
theorem set_current_self (g : TetrisGame) (p : Tetromino)
    (h : g.current_piece = some p) :
    ({ g with current_piece := some p } : TetrisGame) = g := by
  cases g
  simp only at h
  rw [h]

/-- The descent loop of `hard_drop`: provided the piece can fall exactly `d`
rows (position valid through depth `d`, invalid at `d + 1`), any fuel of at
least `d + 1` makes the loop land the piece and place it at depth `d`. -/
theorem hardDropFuel_places (d : Nat) :
    ∀ (g : TetrisGame) (p : Tetromino), g.current_piece = some p →
    (∀ k, k ≤ d → g.is_valid_position (shiftDown p k) = true) →
    g.is_valid_position (shiftDown p (d + 1)) = false →
    ∀ f, d + 1 ≤ f →
      g.hardDropFuel f =
        TetrisGame.place_piece { g with current_piece := some (shiftDown p d) } := by
  induction d with
  | zero =>
      intro g p hc hval hinv f hf
      obtain ⟨f', rfl⟩ : ∃ f', f = f' + 1 := ⟨f - 1, by omega⟩
      rw [TetrisGame.hardDropFuel, TetrisGame.move_piece, hc]
      dsimp only
      rw [show ({ p with x := p.x + 0, y := p.y + 1 } : Tetromino) = shiftDown p 1 by
        simp [shiftDown]]
      have hinv1 : g.is_valid_position (shiftDown p 1) = false := by
        simpa using hinv
      rw [if_pos hinv1, if_pos (show (0 : Int) < 1 by norm_num)]
      dsimp only
      rw [if_neg (show ¬(false = true) by simp)]
      rw [shiftDown_zero, set_current_self g p hc]
  | succ d ih =>
      intro g p hc hval hinv f hf
      obtain ⟨f', rfl⟩ : ∃ f', f = f' + 1 := ⟨f - 1, by omega⟩
      rw [TetrisGame.hardDropFuel, TetrisGame.move_piece, hc]
      dsimp only
      rw [show ({ p with x := p.x + 0, y := p.y + 1 } : Tetromino) = shiftDown p 1 by
        simp [shiftDown]]
      have hv1 : g.is_valid_position (shiftDown p 1) = true := hval 1 (by omega)
      rw [if_neg (show ¬(g.is_valid_position (shiftDown p 1) = false) by simp [hv1])]
      dsimp only
      have hval' : ∀ k, k ≤ d →
          TetrisGame.is_valid_position { g with current_piece := some (shiftDown p 1) }
            (shiftDown (shiftDown p 1) k) = true := by
        intro k hk
        rw [shiftDown_add, Nat.add_comm 1 k]
        exact hval (k + 1) (by omega)
      have hinv' :
          TetrisGame.is_valid_position { g with current_piece := some (shiftDown p 1) }
            (shiftDown (shiftDown p 1) (d + 1)) = false := by
        rw [shiftDown_add, Nat.add_comm 1 (d + 1)]
        exact hinv
      have ihx := ih { g with current_piece := some (shiftDown p 1) } (shiftDown p 1)
        rfl hval' hinv' f' (by omega)
      rw [shiftDown_add, Nat.add_comm 1 d] at ihx
      exact ihx

/-- There always is a well-defined landing depth: with a valid start, a
non-negative `y` and at least one set cell, some depth `d ≤ 19` is the first
whose successor is invalid. -/
theorem exists_stop (g : TetrisGame) (p : Tetromino)
    (hv : g.is_valid_position p = true) (hy : 0 ≤ p.y)
    (hne : p.get_positions ≠ []) :
    ∃ d, d ≤ 19 ∧ (∀ k, k ≤ d → g.is_valid_position (shiftDown p k) = true) ∧
      g.is_valid_position (shiftDown p (d + 1)) = false := by
  have h19 : g.is_valid_position (shiftDown p (19 + 1)) = false := by
    obtain ⟨pos, hpos⟩ := List.exists_mem_of_ne_nil _ hne
    rw [TetrisGame.is_valid_position, validPos_false_iff]
    refine ⟨(pos.1, pos.2 + ((19 + 1 : Nat) : Int)), ?_, ?_⟩
    · rw [get_positions_shift]
      exact List.mem_map.mpr ⟨pos, hpos, rfl⟩
    · have h1 := get_positions_y_le p pos hpos
      right; right; left
      show (GRID_HEIGHT : Int) ≤ pos.2 + ((19 + 1 : Nat) : Int)
      have h2 : (GRID_HEIGHT : Int) = 20 := rfl
      have h3 : ((19 + 1 : Nat) : Int) = 20 := rfl
      omega
  have hex : ∃ k, g.is_valid_position (shiftDown p (k + 1)) = false := ⟨19, h19⟩
  refine ⟨Nat.find hex, Nat.find_le h19, ?_, Nat.find_spec hex⟩
  intro k hk
  cases k with
  | zero => rw [shiftDown_zero]; exact hv
  | succ j =>
      have hj : j < Nat.find hex := by omega
      have hne' := Nat.find_min hex hj
      cases hb : g.is_valid_position (shiftDown p (j + 1)) with
      | false => exact absurd hb hne'
      | true => rfl

/-- Claim C5 (amended): `hard_drop` terminates — any fuel of at least `d + 1`
gives the same result — and commits the piece at the depth of first
obstruction: the `d ≥ 0` with every translate by `k ≤ d` valid and the
translate by `d + 1` invalid (on an empty field below the piece this is the
maximum valid depth). -/
theorem claim5_theorem (g : TetrisGame) (p : Tetromino)
    (hc : g.current_piece = some p)
    (hv : g.is_valid_position p = true)
    (hy : 0 ≤ p.y)
    (hne : p.get_positions ≠ []) :
    ∃ d : Nat,
      (∀ k, k ≤ d → g.is_valid_position (shiftDown p k) = true) ∧
      g.is_valid_position (shiftDown p (d + 1)) = false ∧
      g.hard_drop =
        TetrisGame.place_piece { g with current_piece := some (shiftDown p d) } ∧
      (∀ f, d + 1 ≤ f →
        g.hardDropFuel f =
          TetrisGame.place_piece { g with current_piece := some (shiftDown p d) }) := by
  obtain ⟨d, hd19, hval, hinv⟩ := exists_stop g p hv hy hne
  refine ⟨d, hval, hinv, ?_, fun f hf => hardDropFuel_places d g p hc hval hinv f hf⟩
  rw [TetrisGame.hard_drop]
  exact hardDropFuel_places d g p hc hval hinv 21 (by omega)

def pO : Tetromino := mkTetromino 4 0 1

/-- A grid whose only block is an overhang at row 5, column 4, with the rest
of the column empty below it. -/
def gridC5 : Grid :=
  (List.replicate 5 emptyRow) ++ ((emptyRow.set 4 (some (255, 0, 0))) :: List.replicate 14 emptyRow)

def gC5 : TetrisGame :=
  { blankGame with grid := gridC5, current_piece := some pO,
                   next_piece := some pO, rng := [0, 0] }

/-- Counterexample to claim C5 as stated: under the overhang grid `gridC5`
the O piece at depth 18 is valid while depth 19 is not — so the largest
`d` with `valid d ∧ ¬ valid (d+1)` is at least 18 — yet `hard_drop` commits
the piece at depth 3 (its cells land in rows 3 and 4, on top of the
overhang), leaving the deeper position's cells empty. -/
theorem claim5_counterexample :
    gC5.is_valid_position (shiftDown pO 18) = true ∧
    gC5.is_valid_position (shiftDown pO 19) = false ∧
    gC5.is_valid_position (shiftDown pO 3) = true ∧
    gC5.is_valid_position (shiftDown pO 4) = false ∧
    ((gC5.hard_drop).grid.getD 3 []).getD 4 none = some (255, 255, 0) ∧
    ((gC5.hard_drop).grid.getD 18 []).getD 4 none = none := by
  decide

def gW5 : TetrisGame :=
  { blankGame with current_piece := some pO, next_piece := some pO, rng := [0, 0] }

/-- Witness for the amended C5: the O piece dropped over an empty field. -/
theorem claim5_witness :
    gW5.current_piece = some pO ∧
    gW5.is_valid_position pO = true ∧
    0 ≤ pO.y ∧
    pO.get_positions ≠ [] ∧
    (∃ d : Nat,
      (∀ k, k ≤ d → gW5.is_valid_position (shiftDown pO k) = true) ∧
      gW5.is_valid_position (shiftDown pO (d + 1)) = false ∧
      gW5.hard_drop =
        TetrisGame.place_piece { gW5 with current_piece := some (shiftDown pO d) } ∧
      (∀ f, d + 1 ≤ f →
        gW5.hardDropFuel f =
          TetrisGame.place_piece { gW5 with current_piece := some (shiftDown pO d) })) :=
  ⟨rfl, by decide, by decide, by decide,
    claim5_theorem gW5 pO rfl (by decide) (by decide) (by decide)⟩

def fullRow : List (Option Color) := List.replicate GRID_WIDTH (some (0, 255, 0))

/-- A mid-clear state: rows 18 and 19 are full and pending, 8 lines were
cleared before, level 1, score 50. -/
def gC2 : TetrisGame :=
  { blankGame with
      grid := List.replicate 18 emptyRow ++ [fullRow, fullRow],
      current_piece := some (mkTetromino 4 0 1),
      next_piece := some (mkTetromino 4 0 1),
      score := 50,
      lines_cleared := 8,
      lines_clearing := [18, 19] }

/-! ### The session invariant: well-formed grid, pending rows full -/

/-- The grid is exactly `GRID_HEIGHT` rows of exactly `GRID_WIDTH` cells. -/
def gridWF (grid : Grid) : Prop :=
  grid.length = GRID_HEIGHT ∧ ∀ row ∈ grid, row.length = GRID_WIDTH

/-- Session invariant: the grid is well formed and every pending-clear row
index is in range and fully occupied. -/
def Inv (g : TetrisGame) : Prop :=
  gridWF g.grid ∧
    ∀ y ∈ g.lines_clearing, y < GRID_HEIGHT ∧ rowFull (g.grid.getD y []) = true

/-- `Inv` only reads the grid and the pending set. -/
theorem Inv_congr (g1 g2 : TetrisGame) (hg : g1.grid = g2.grid)
    (hl : g1.lines_clearing = g2.lines_clearing) (h : Inv g1) : Inv g2 := by
  constructor
  · rw [← hg]; exact h.1
  · intro y hy
    rw [← hl] at hy
    rw [← hg]
    exact h.2 y hy

theorem gridWF_set (grid : Grid) (i : Nat) (row : List (Option Color))
    (h : gridWF grid) (hrow : row.length = GRID_WIDTH) :
    gridWF (grid.set i row) := by
  constructor
  · rw [List.length_set]; exact h.1
  · intro r hr
    rcases List.mem_or_eq_of_mem_set hr with hmem | rfl
    · exact h.2 r hmem
    · exact hrow

theorem gridWF_commitCell (grid : Grid) (x y : Int) (c : Color)
    (h : gridWF grid) : gridWF (commitCell grid x y c) := by
  rw [commitCell]
  split_ifs with hc
  · apply gridWF_set _ _ _ h
    rw [List.length_set]
    apply h.2
    apply getD_mem
    rw [h.1]
    omega
  · exact h

theorem rowFull_setCell (grid : Grid) (i x : Nat) (c : Color) (j : Nat)
    (h : rowFull (grid.getD j []) = true) :
    rowFull ((grid.set i ((grid.getD i []).set x (some c))).getD j []) = true := by
  rw [getD_set]
  split_ifs with he
  · obtain ⟨heq, _⟩ := he
    subst heq
    exact rowFull_set_some _ _ _ h
  · exact h

theorem rowFull_commitCell (grid : Grid) (x y : Int) (c : Color) (j : Nat)
    (h : rowFull (grid.getD j []) = true) :
    rowFull ((commitCell grid x y c).getD j []) = true := by
  rw [commitCell]
  split_ifs with hc
  · exact rowFull_setCell grid y.toNat x.toNat c j h
  · exact h

theorem gridWF_foldl_commit (l : List (Int × Int)) (c : Color) :
    ∀ grid : Grid, gridWF grid →
      gridWF (l.foldl (fun gr pos => commitCell gr pos.1 pos.2 c) grid) := by
  induction l with
  | nil => intro grid h; exact h
  | cons a t ih => intro grid h; exact ih _ (gridWF_commitCell _ _ _ _ h)

theorem rowFull_foldl_commit (l : List (Int × Int)) (c : Color) (j : Nat) :
    ∀ grid : Grid, rowFull (grid.getD j []) = true →
      rowFull ((l.foldl (fun gr pos => commitCell gr pos.1 pos.2 c) grid).getD j []) = true := by
  induction l with
  | nil => intro grid h; exact h
  | cons a t ih => intro grid h; exact ih _ (rowFull_commitCell _ _ _ _ _ h)

theorem gridWF_commitPiece (grid : Grid) (p : Tetromino) (h : gridWF grid) :
    gridWF (commitPiece grid p) :=
  gridWF_foldl_commit p.get_positions p.color grid h

theorem rowFull_commitPiece (grid : Grid) (p : Tetromino) (j : Nat)
    (h : rowFull (grid.getD j []) = true) :
    rowFull ((commitPiece grid p).getD j []) = true :=
  rowFull_foldl_commit p.get_positions p.color j grid h

theorem gridWF_compact_aux (l : List Nat) :
    ∀ grid : Grid, gridWF grid → (∀ y ∈ l, y < GRID_HEIGHT) →
      gridWF (l.foldl
        (fun gr y => (List.replicate GRID_WIDTH (none : Option Color)) :: gr.eraseIdx y)
        grid) := by
  induction l with
  | nil => intro grid h _; exact h
  | cons a t ih =>
      intro grid h hb
      apply ih
      · constructor
        · rw [List.length_cons, List.length_eraseIdx]
          have ha : a < grid.length := by
            rw [h.1]
            exact hb a (List.mem_cons_self a t)
          rw [if_pos ha]
          have h20 : grid.length = GRID_HEIGHT := h.1
          omega
        · intro row hrow
          rcases List.mem_cons.mp hrow with rfl | hmem
          · exact List.length_replicate _ _
          · exact h.2 row (List.mem_of_mem_eraseIdx hmem)
      · intro y hy
        exact hb y (List.mem_cons_of_mem a hy)

theorem gridWF_compactGrid (grid : Grid) (rows : List Nat) (h : gridWF grid)
    (hb : ∀ y ∈ rows, y < GRID_HEIGHT) : gridWF (compactGrid grid rows) :=
  gridWF_compact_aux (sortDesc rows) grid h
    (fun y hy => hb y ((mem_sortDesc y rows).mp hy))

theorem Inv_finish (g : TetrisGame) (h : Inv g) : Inv (g.finish_line_clear) := by
  by_cases hcl : g.lines_clearing = []
  · rw [TetrisGame.finish_line_clear, if_pos hcl]
    exact h
  · have hfp := finish_proj g hcl
    constructor
    · rw [hfp.1]
      exact gridWF_compactGrid _ _ h.1 (fun y hy => (h.2 y hy).1)
    · intro y hy
      rw [hfp.2.1] at hy
      simp at hy

theorem Inv_spawn (g : TetrisGame) (h : Inv g) : Inv (g.spawn_new_piece) :=
  Inv_congr g _ (spawn_fields g).1.symm (spawn_fields g).2.1.symm h

theorem Inv_clear_lines (g : TetrisGame) (h : Inv g) : Inv (g.clear_lines) := by
  rw [TetrisGame.clear_lines]
  split_ifs with hl
  · exact Inv_finish g h
  · constructor
    · exact h.1
    · intro y hy
      exact (mem_fullRowsOf g.grid y).mp hy

theorem Inv_place (g : TetrisGame) (h : Inv g) : Inv (g.place_piece) := by
  rw [TetrisGame.place_piece]
  cases hc : g.current_piece with
  | none => exact h
  | some p =>
      apply Inv_spawn
      apply Inv_clear_lines
      constructor
      · exact gridWF_commitPiece g.grid p h.1
      · intro y hy
        exact ⟨(h.2 y hy).1, rowFull_commitPiece g.grid p y (h.2 y hy).2⟩

theorem Inv_move (g : TetrisGame) (dx dy : Int) (h : Inv g) :
    Inv (g.move_piece dx dy).2 := by
  cases hcur : g.current_piece with
  | none =>
      rw [TetrisGame.move_piece, hcur]
      exact h
  | some p =>
      have hspec := move_piece_spec g p dx dy hcur
      by_cases hval :
          g.is_valid_position { p with x := p.x + dx, y := p.y + dy } = true
      · rw [hspec.1 hval]
        exact Inv_congr g _ rfl rfl h
      · have hval2 :
            g.is_valid_position { p with x := p.x + dx, y := p.y + dy } = false := by
          cases hb : g.is_valid_position { p with x := p.x + dx, y := p.y + dy } with
          | false => rfl
          | true => exact absurd hb hval
        by_cases hdy : 0 < dy
        · rw [hspec.2.2 hval2 hdy]
          apply Inv_spawn
          apply Inv_clear_lines
          exact ⟨gridWF_commitPiece g.grid p h.1,
            fun y hy => ⟨(h.2 y hy).1, rowFull_commitPiece g.grid p y (h.2 y hy).2⟩⟩
        · rw [hspec.2.1 hval2 (by omega)]
          exact h

theorem Inv_hardDropFuel (f : Nat) : ∀ g : TetrisGame, Inv g → Inv (g.hardDropFuel f) := by
  induction f with
  | zero => intro g h; exact h
  | succ f ih =>
      intro g h
      rw [TetrisGame.hardDropFuel]
      split_ifs with h1
      · exact ih _ (Inv_move g 0 1 h)
      · exact Inv_move g 0 1 h

theorem highestBlockY_le (grid : Grid) (x : Nat) :
    highestBlockY grid x ≤ GRID_HEIGHT := by
  rw [highestBlockY]
  cases hf : (List.range GRID_HEIGHT).find?
      (fun y => ((grid.getD y []).getD x none).isSome) with
  | none => exact le_refl _
  | some y =>
      have hmem := List.mem_of_find?_eq_some hf
      exact le_of_lt (List.mem_range.mp hmem)

theorem srb_pos_bounds (grid : Grid) (pos : Nat × Nat)
    (hmem : pos ∈ (List.range GRID_WIDTH).filterMap (fun x =>
      let h := highestBlockY grid x
      if 0 < h then some (x, h - 1) else none)) :
    pos.1 < GRID_WIDTH ∧ pos.2 < GRID_HEIGHT := by
  rw [List.mem_filterMap] at hmem
  obtain ⟨x, hx, heq⟩ := hmem
  rw [List.mem_range] at hx
  dsimp only at heq
  split_ifs at heq with hpos
  · have hb := highestBlockY_le grid x
    obtain rfl := Option.some_inj.mp heq
    constructor
    · exact hx
    · show highestBlockY grid x - 1 < GRID_HEIGHT
      have h20 : 0 < GRID_HEIGHT := by norm_num [GRID_HEIGHT]
      omega

theorem Inv_spawn_random_block (g : TetrisGame) (h : Inv g) :
    Inv (g.spawn_random_block) := by
  rw [TetrisGame.spawn_random_block]
  dsimp only
  split_ifs with hvp
  · exact h
  · set vp := (List.range GRID_WIDTH).filterMap (fun x =>
      let hh := highestBlockY g.grid x
      if 0 < hh then some (x, hh - 1) else none) with hvpdef
    set pos := vp.getD ((draw g).1 % vp.length) (0, 0) with hposdef
    have hposmem : pos ∈ vp := by
      apply getD_mem
      exact Nat.mod_lt _ (List.length_pos.mpr hvp)
    have hb := srb_pos_bounds g.grid pos (by rw [hvpdef] at hposmem; exact hposmem)
    constructor
    · apply gridWF_set _ _ _ h.1
      rw [List.length_set]
      apply h.1.2
      apply getD_mem
      rw [h.1.1]
      exact hb.2
    · intro y hy
      exact ⟨(h.2 y hy).1, rowFull_setCell g.grid pos.2 pos.1 _ y (h.2 y hy).2⟩

theorem Inv_updateGravity (g : TetrisGame) (h : Inv g) : Inv (g.updateGravity) := by
  rw [TetrisGame.updateGravity]
  split_ifs with hc
  · exact Inv_congr _ _ rfl rfl (Inv_move g 0 1 h)
  · exact h

theorem Inv_updateClearing (g : TetrisGame) (dt : Nat) (h : Inv g) :
    Inv (g.updateClearing dt) := by
  rw [TetrisGame.updateClearing]
  split_ifs with hc h8
  · exact Inv_finish _ (Inv_congr g _ rfl rfl h)
  · exact Inv_congr g _ rfl rfl h
  · exact h

theorem Inv_updateRandom (g : TetrisGame) (dt : Nat) (h : Inv g) :
    Inv (g.updateRandom dt) := by
  rw [TetrisGame.updateRandom]
  split_ifs with hc hint
  · exact Inv_congr _ _ rfl rfl
      (Inv_spawn_random_block _ (Inv_congr g _ rfl rfl h))
  · exact Inv_congr g _ rfl rfl h
  · exact h

theorem Inv_update (g : TetrisGame) (dt : Nat) (h : Inv g) : Inv (g.update dt) := by
  rw [TetrisGame.update]
  split_ifs with hgo
  · exact h
  · exact Inv_updateRandom _ _ (Inv_updateClearing _ _
      (Inv_updateGravity _ (Inv_congr g _ rfl rfl h)))

theorem Inv_init (rng : List Nat) : Inv (TetrisGame.initGame rng) := by
  rw [TetrisGame.initGame]
  apply Inv_spawn
  apply Inv_spawn
  refine ⟨⟨?_, ?_⟩, ?_⟩
  · exact List.length_replicate _ _
  · intro row hrow
    have hrow2 : row ∈ List.replicate GRID_HEIGHT (List.replicate GRID_WIDTH (none : Option Color)) := hrow
    rw [List.eq_of_mem_replicate hrow2]
    exact List.length_replicate _ _
  · intro y hy
    exact absurd hy (List.not_mem_nil y)

theorem Inv_applyCmd (g : TetrisGame) (c : Cmd) (h : Inv g) :
    Inv (g.applyCmd c) := by
  cases c with
  | restart => exact Inv_init g.rng
  | togglePause => exact Inv_congr g _ rfl rfl h
  | toggleRandom => exact Inv_congr g _ rfl rfl h
  | moveLeft =>
      rw [TetrisGame.applyCmd]
      split_ifs with hc
      · exact Inv_move g (-1) 0 h
      · exact h
  | moveRight =>
      rw [TetrisGame.applyCmd]
      split_ifs with hc
      · exact Inv_move g 1 0 h
      · exact h
  | softDrop =>
      rw [TetrisGame.applyCmd]
      split_ifs with hc
      · exact Inv_move g 0 1 h
      · exact h
  | rotateCW =>
      rw [TetrisGame.applyCmd]
      split_ifs with hc
      · rw [TetrisGame.rotate_piece]
        cases hcur : g.current_piece with
        | none => exact h
        | some p =>
            dsimp only
            split_ifs with hval
            · exact h
            · exact Inv_congr g _ rfl rfl h
      · exact h
  | hardDrop =>
      rw [TetrisGame.applyCmd]
      split_ifs with hc
      · rw [TetrisGame.hard_drop]
        exact Inv_hardDropFuel 21 g h
      · exact h
  | tick dt => exact Inv_update g dt h

/-- Every reachable session state satisfies the invariant. -/
theorem reachable_inv (g : TetrisGame) (h : Reachable g) : Inv g := by
  induction h with
  | init rng => exact Inv_init rng
  | step g c _ ih => exact Inv_applyCmd g c ih

/-- Claim C2: on a tick where only the clear engine acts, row compaction
happens exactly when the animation clock reaches 800 ms; at that moment, with
`n` the number of pending rows, the pending rows are deleted in descending
order with an empty row prepended for each, score grows by `n * 100 * level`
(level as before the update), `lines_cleared` grows by `n`, the level becomes
`lines_cleared / 10 + 1` and the fall speed `max 100 (1000 - (level-1)*100)`;
in particular 4 rows at level 1 add 400, reaching 10 total lines gives level 2
and speed 900, and 100 or more total lines floor the speed at 100.  Moreover
compaction never happens earlier through a placement: in an invariant state
with a pending clear, committing any piece leaves the full-row scan non-empty,
so `clear_lines` only re-records the pending rows and does not touch the
grid. -/
theorem claim2_theorem (g : TetrisGame) (dt : Nat)
    (hgo : g.game_over = false) (hp : g.paused = false)
    (hcl : g.lines_clearing ≠ [])
    (hfall : g.fall_time + dt < g.fall_speed)
    (hrb : g.random_blocks_enabled = false) :
    ((g.clear_animation_time + dt < 800 →
        (g.update dt).grid = g.grid ∧
        (g.update dt).lines_clearing = g.lines_clearing ∧
        (g.update dt).score = g.score ∧
        (g.update dt).lines_cleared = g.lines_cleared ∧
        (g.update dt).level = g.level ∧
        (g.update dt).fall_speed = g.fall_speed) ∧
     (800 ≤ g.clear_animation_time + dt →
        (g.update dt).grid = compactGrid g.grid g.lines_clearing ∧
        (g.update dt).lines_clearing = [] ∧
        (g.update dt).score = g.score + g.lines_clearing.length * 100 * g.level ∧
        (g.update dt).lines_cleared = g.lines_cleared + g.lines_clearing.length ∧
        (g.update dt).level = (g.lines_cleared + g.lines_clearing.length) / 10 + 1 ∧
        ((g.update dt).fall_speed : Int) =
          max 100 (1000 -
            ((((g.lines_cleared + g.lines_clearing.length) / 10 + 1 : Nat) : Int) - 1) * 100))) ∧
    ((800 ≤ g.clear_animation_time + dt →
       (g.lines_clearing.length = 4 → g.level = 1 →
          (g.update dt).score = g.score + 400) ∧
       (g.lines_cleared + g.lines_clearing.length = 10 →
          (g.update dt).level = 2 ∧ (g.update dt).fall_speed = 900) ∧
       (100 ≤ g.lines_cleared + g.lines_clearing.length →
          (g.update dt).fall_speed = 100)) ∧
     (Inv g → ∀ p : Tetromino,
       (TetrisGame.clear_lines { g with grid := commitPiece g.grid p }).grid =
         commitPiece g.grid p ∧
       (TetrisGame.clear_lines { g with grid := commitPiece g.grid p }).lines_clearing
         ≠ [])) := by
  have hgo' : ¬(g.game_over = true ∨ g.paused = true) := by simp [hgo, hp]
  have hupd := update_clearing_only g dt hgo' hcl hfall hrb
  have hfp := finish_proj
    { g with fall_time := g.fall_time + dt,
             clear_animation_time := g.clear_animation_time + dt } hcl
  refine ⟨⟨?_, ?_⟩, ?_, ?_⟩
  · intro hlt
    rw [hupd, if_neg (by omega)]
    exact ⟨rfl, rfl, rfl, rfl, rfl, rfl⟩
  · intro h8
    rw [hupd, if_pos h8]
    refine ⟨hfp.1, hfp.2.1, hfp.2.2.1, hfp.2.2.2.1, hfp.2.2.2.2.1, ?_⟩
    rw [hfp.2.2.2.2.2,
      Int.toNat_of_nonneg (le_trans (by norm_num) (le_max_left _ _))]
  swap
  · intro hinv p
    obtain ⟨y, hy⟩ := List.exists_mem_of_ne_nil _ hcl
    have hyf := hinv.2 y hy
    have hYmem : y ∈ fullRowsOf (commitPiece g.grid p) :=
      (mem_fullRowsOf _ _).mpr ⟨hyf.1, rowFull_commitPiece g.grid p y hyf.2⟩
    have hfr : fullRowsOf (commitPiece g.grid p) ≠ [] := List.ne_nil_of_mem hYmem
    rw [TetrisGame.clear_lines]
    rw [if_neg (show ¬(fullRowsOf
      ({ g with grid := commitPiece g.grid p } : TetrisGame).grid = []) from hfr)]
    exact ⟨rfl, hfr⟩
  intro h8
  rw [hupd, if_pos h8]
  refine ⟨?_, ?_, ?_⟩
  · intro hn hl
    rw [hfp.2.2.1]
    show g.score + g.lines_clearing.length * 100 * g.level = g.score + 400
    rw [hn, hl]
  · intro hL
    constructor
    · rw [hfp.2.2.2.2.1]
      show (g.lines_cleared + g.lines_clearing.length) / 10 + 1 = 2
      rw [hL]
    · rw [hfp.2.2.2.2.2]
      show (max 100 (1000 -
        ((((g.lines_cleared + g.lines_clearing.length) / 10 + 1 : Nat) : Int) - 1) * 100)).toNat = 900
      rw [hL]
      decide
  · intro hL
    rw [hfp.2.2.2.2.2]
    show (max 100 (1000 -
      ((((g.lines_cleared + g.lines_clearing.length) / 10 + 1 : Nat) : Int) - 1) * 100)).toNat = 100
    rw [max_eq_left (by push_cast; omega)]
    rfl

/-- Witness for C2: an 800 ms tick on `gC2` compacts the two pending rows,
adds `2 * 100 * 1 = 200` to the score, reaches 10 total lines, and therefore
level 2 and fall speed 900. -/
theorem claim2_witness :
    gC2.lines_clearing ≠ [] ∧
    gC2.fall_time + 800 < gC2.fall_speed ∧
    ((gC2.update 800).score = 250 ∧
     (gC2.update 800).level = 2 ∧
     (gC2.update 800).fall_speed = 900 ∧
     (gC2.update 800).lines_clearing = []) := by
  have h := claim2_theorem gC2 800 rfl rfl (by decide) (by decide) rfl
  refine ⟨by decide, by decide, ?_, ?_, ?_, ?_⟩
  · exact ((h.1.2 (by norm_num)).2.2.1).trans (by decide)
  · exact ((h.2.1 (by norm_num)).2.1 (by decide)).1
  · exact ((h.2.1 (by norm_num)).2.1 (by decide)).2
  · exact (h.1.2 (by norm_num)).2.1

/-! ### Claim 8: grid shape and write bounds -/

/-- Claim C8: in every reachable session state, under every operation, the
grid remains exactly 20 rows of exactly 10 cells; and the guarded cell write
used to commit pieces is skipped without effect at every coordinate outside
`[0, 10) x [0, 20)` — out-of-range piece cells (e.g. above the visible field)
are silently ignored, never written. -/
theorem claim8_theorem (g : TetrisGame) (c : Cmd) (hreach : Reachable g) :
    (gridWF g.grid ∧ gridWF ((g.applyCmd c).grid)) ∧
    (∀ (grid : Grid) (x y : Int) (col : Color),
      (x < 0 ∨ (GRID_WIDTH : Int) ≤ x ∨ y < 0 ∨ (GRID_HEIGHT : Int) ≤ y) →
      commitCell grid x y col = grid) :=
  ⟨⟨(reachable_inv g hreach).1,
    (Inv_applyCmd g c (reachable_inv g hreach)).1⟩,
   fun grid x y col hout => by
    rw [commitCell, if_neg (by omega)]⟩

/-- Witness for C8: grid well-formedness holds in the fresh session and is
kept by a full gravity tick. -/
theorem claim8_witness :
    gridWF (TetrisGame.initGame []).grid ∧
    gridWF (((TetrisGame.initGame []).applyCmd (Cmd.tick 1000)).grid) :=
  (claim8_theorem (TetrisGame.initGame []) (Cmd.tick 1000) (Reachable.init [])).1

/-! ### Claim 10: pending-clear rows stay full until compaction -/

/-- Claim C10: in every reachable state, every row index in the pending-clear
set is within `[0, 20)` and its grid row is fully occupied — so a subsequent
placement's full-row scan (`fullRowsOf`) always re-detects every pending
row. -/
theorem claim10_theorem (g : TetrisGame) (hreach : Reachable g) :
    ∀ y ∈ g.lines_clearing,
      y < GRID_HEIGHT ∧ rowFull (g.grid.getD y []) = true ∧
        y ∈ fullRowsOf g.grid := by
  intro y hy
  have h := reachable_inv g hreach
  exact ⟨(h.2 y hy).1, (h.2 y hy).2,
    (mem_fullRowsOf _ _).mpr ⟨(h.2 y hy).1, (h.2 y hy).2⟩⟩

/-- Witness for C10: in the reachable mid-clear state `gS`, pending row 18 is
in range, fully occupied, and re-detected by the full-row scan. -/
theorem claim10_witness :
    18 ∈ gS.lines_clearing ∧
    (18 < GRID_HEIGHT ∧ rowFull (gS.grid.getD 18 []) = true ∧
      18 ∈ fullRowsOf gS.grid) :=
  ⟨by decide,
   claim10_theorem gS (reachable_applyCmds _ _ (Reachable.init rngS)) 18 (by decide)⟩

end Tetris
